import Mathlib

/-!
Verification development for the remote command-execution core of the
repository (src/scp_client.py): the method RemoteClient.safe_exec_cmd and its
wrapper RemoteClient.execute_commands.

The embedding models the paramiko channel exactly at the abstraction level the
source uses: a channel exposes buffered-byte queries for stdout and stderr
(recv_ready, recv_stderr_ready), whole-buffer reads (the source always calls
recv with the current buffer length, draining it), an exit-status query, and
independent half-close operations.  The transport is modelled as a schedule of
delivery ticks: each iteration of the polling loop consumes one tick, whose
actions arrive partly during the select call (atSelect) and partly between the
reads and the loop-break check (afterRead), which models the asynchronous
arrival race the break condition guards against.  Wall-clock time (the
5-second select timeout) is not modelled; iteration counts stand in for it.
Bytes are Nat values; decoded text is the list of Unicode code points.
-/

namespace ScpClient

/-- A delivery action performed by the transport: bytes arriving on the stdout
stream, bytes arriving on the stderr stream, the remote exit status becoming
available, or the remote side closing the channel. -/
inductive Action where
  | out (bs : List Nat)
  | err (bs : List Nat)
  | exit (code : Int)
  | close
deriving DecidableEq

/-- One tick of transport activity consumed by one iteration of the polling
loop.  Actions in atSelect arrive during the select call; actions in afterRead
arrive between the channel reads and the loop-break check. -/
structure Tick where
  atSelect : List Action
  afterRead : List Action
deriving DecidableEq

/-- State of the paramiko channel as observed by safe_exec_cmd: the stdout
in-buffer, the stderr in-buffer, the exit-status slot, the closed flag, and
the two half-close flags. -/
structure Channel where
  inBuffer : List Nat
  errBuffer : List Nat
  exitStatus : Option Int
  closed : Bool
  readShut : Bool
  writeShut : Bool
deriving DecidableEq

/-- channel.recv_ready(): stdout bytes are buffered. -/
def recv_ready (c : Channel) : Bool := !c.inBuffer.isEmpty

/-- channel.recv_stderr_ready(): stderr bytes are buffered. -/
def recv_stderr_ready (c : Channel) : Bool := !c.errBuffer.isEmpty

/-- channel.exit_status_ready(): the remote exit status has been received. -/
def exit_status_ready (c : Channel) : Bool := c.exitStatus.isSome

/-- channel.shutdown_write(). -/
def shutdown_write (c : Channel) : Channel := { c with writeShut := true }

/-- channel.shutdown_read(). -/
def shutdown_read (c : Channel) : Channel := { c with readShut := true }

/-- channel.close(). -/
def closeChan (c : Channel) : Channel := { c with closed := true }

/-- channel.recv_exit_status(): paramiko returns the received status, and
returns the default -1 when the channel was closed without one. -/
def recv_exit_status (c : Channel) : Int :=
  match c.exitStatus with
  | some e => e
  | none => -1

/-- The read direction of the channel is still open. -/
def read_open (c : Channel) : Bool := !c.closed && !c.readShut

/-- The write direction of the channel is still open. -/
def write_open (c : Channel) : Bool := !c.closed && !c.writeShut

/-- Effect of one transport action on the channel. -/
def applyAction (c : Channel) : Action → Channel
  | .out bs => { c with inBuffer := c.inBuffer ++ bs }
  | .err bs => { c with errBuffer := c.errBuffer ++ bs }
  | .exit e => { c with exitStatus := some e }
  | .close => { c with closed := true }

/-- Effect of a list of transport actions, applied in order. -/
def applyActions (c : Channel) (as : List Action) : Channel := as.foldl applyAction c

/-- Both delivery phases of a tick, flattened in arrival order. -/
def tickActions (t : Tick) : List Action := t.atSelect ++ t.afterRead

/-- All actions of a schedule, flattened in arrival order. -/
def schedActions (sched : List Tick) : List Action := (sched.map tickActions).flatten

/-- The stdout bytes carried by one action. -/
def actionOuts : Action → List Nat
  | .out bs => bs
  | _ => []

/-- All stdout bytes carried by a list of actions, in order. -/
def outsOfActs (as : List Action) : List Nat := (as.map actionOuts).flatten

/-- All stdout bytes a schedule delivers, in order. -/
def outsOf (sched : List Tick) : List Nat := outsOfActs (schedActions sched)

/-- The list of actions contains an exit-status delivery. -/
def hasExit (as : List Action) : Bool :=
  as.any fun a => match a with | .exit _ => true | _ => false

/-- The list of actions contains a remote close. -/
def hasClose (as : List Action) : Bool :=
  as.any fun a => match a with | .close => true | _ => false

/-- The list of actions signals remote completion (exit status or close). -/
def hasDone (as : List Action) : Bool := hasExit as || hasClose as

/-- In-order delivery of a flattened action stream: no stdout bytes are
delivered after the exit status or the close arrives.  This captures the SSH
transport guarantee that all output written before process exit is delivered
before the exit-status and close messages. -/
def orderedActs : List Action → Bool
  | [] => true
  | .exit _ :: rest => (outsOfActs rest).isEmpty
  | .close :: rest => (outsOfActs rest).isEmpty
  | _ :: rest => orderedActs rest

/-- The transport delivers in order for a run starting from channel c: the
channel is still open at the start, and if the exit status is already known
then no further stdout bytes may arrive, otherwise all stdout bytes precede
the exit-status and close deliveries. -/
def orderedDelivery (c : Channel) (sched : List Tick) : Bool :=
  !c.closed &&
    (if c.exitStatus.isSome then (outsOfActs (schedActions sched)).isEmpty
     else orderedActs (schedActions sched))

/-- The read phase of one loop iteration (source lines 207-215): select
returns the channel as readable when either stream has buffered bytes; if
stdout is ready the whole stdout buffer is read and appended as one chunk; if
stderr is then ready the whole stderr buffer is read and discarded; got_chunk
records whether either read happened.  Returns (channel, new stdout chunks,
got_chunk). -/
def readPhase (c : Channel) : Channel × List (List Nat) × Bool :=
  if recv_ready c || recv_stderr_ready c then
    let gotOut := recv_ready c
    let chunks := if gotOut then [c.inBuffer] else []
    let c1 := if gotOut then { c with inBuffer := [] } else c
    let gotErr := recv_stderr_ready c1
    let c2 := if gotErr then { c1 with errBuffer := [] } else c1
    (c2, chunks, gotOut || gotErr)
  else (c, [], false)

/-- The while-condition of the polling loop (source line 204):
not channel.closed or channel.recv_ready() or channel.recv_stderr_ready(). -/
def loopCond (c : Channel) : Bool :=
  !c.closed || recv_ready c || recv_stderr_ready c

/-- The loop-break condition (source lines 223-228): no data was obtained this
iteration, the exit status is available, and both buffers are empty. -/
def breakCond (c : Channel) (got : Bool) : Bool :=
  !got && exit_status_ready c && !recv_stderr_ready c && !recv_ready c

/-- A tick in which nothing arrives (a not-ready select timeout). -/
def idleTick : Tick := ⟨[], []⟩

/-- One full iteration of the loop body: deliveries at select, the read phase,
then the late deliveries before the break check.  Returns (channel, new
stdout chunks, got_chunk). -/
def loopIter (c : Channel) (t : Tick) : Channel × List (List Nat) × Bool :=
  let cA := applyActions c t.atSelect
  let p := readPhase cA
  (applyActions p.1 t.afterRead, p.2.1, p.2.2)

/-- Result of running the polling loop: the accumulated stdout chunks, the
final channel, the unconsumed part of the schedule, the number of iterations
executed, and whether the loop ended through the inner break. -/
structure LoopOut where
  chunks : List (List Nat)
  chan : Channel
  rest : List Tick
  iters : Nat
  viaBreak : Bool
deriving DecidableEq

/-- The polling loop of safe_exec_cmd (source lines 204-233), with fuel
bounding the number of iterations (the source loop can run forever; fuel
exhaustion returns none and models a run that has not terminated).  Each
iteration consumes one tick of the schedule (an idle tick once the schedule is
exhausted). -/
def execLoop : Nat → Channel → List Tick → List (List Nat) → Nat → Option LoopOut
  | 0, _, _, _, _ => none
  | fuel + 1, c, sched, acc, n =>
    if loopCond c then
      let t := sched.headD idleTick
      let p := loopIter c t
      if breakCond p.1 p.2.2 then
        some ⟨acc ++ p.2.1, closeChan (shutdown_read p.1), sched.tail, n + 1, true⟩
      else
        execLoop fuel p.1 sched.tail (acc ++ p.2.1) (n + 1)
    else
      some ⟨acc, c, sched, n, false⟩

/-- Strict UTF-8 decoding of a byte list into Unicode code points, as
performed by Python bytes.decode with the utf8 codec: rejects stray
continuation bytes, overlong forms, surrogates, and code points above
0x10FFFF; returns none on any error. -/
def decodeUtf8 : List Nat → Option (List Nat)
  | [] => some []
  | b :: rest =>
    if b < 0x80 then
      (decodeUtf8 rest).map fun t => b :: t
    else if b < 0xC2 then none
    else if b < 0xE0 then
      match rest with
      | b1 :: rest2 =>
        if 0x80 ≤ b1 ∧ b1 < 0xC0 then
          (decodeUtf8 rest2).map fun t => ((b - 0xC0) * 64 + (b1 - 0x80)) :: t
        else none
      | [] => none
    else if b < 0xF0 then
      match rest with
      | b1 :: b2 :: rest2 =>
        if (0x80 ≤ b1 ∧ b1 < 0xC0) ∧ (0x80 ≤ b2 ∧ b2 < 0xC0) then
          let cp := (b - 0xE0) * 4096 + (b1 - 0x80) * 64 + (b2 - 0x80)
          if cp < 0x800 ∨ (0xD800 ≤ cp ∧ cp < 0xE000) then none
          else (decodeUtf8 rest2).map fun t => cp :: t
        else none
      | _ => none
    else if b < 0xF5 then
      match rest with
      | b1 :: b2 :: b3 :: rest2 =>
        if (0x80 ≤ b1 ∧ b1 < 0xC0) ∧ (0x80 ≤ b2 ∧ b2 < 0xC0) ∧ (0x80 ≤ b3 ∧ b3 < 0xC0) then
          let cp := (b - 0xF0) * 262144 + (b1 - 0x80) * 4096 + (b2 - 0x80) * 64 + (b3 - 0x80)
          if cp < 0x10000 ∨ 0x110000 ≤ cp then none
          else (decodeUtf8 rest2).map fun t => cp :: t
        else none
      | _ => none
    else none

/-- Result of decoding the chunk list: the decoded code points, or the raw
bytes of the chunk on which decoding raised (Python attaches the bytes object
passed to decode to the UnicodeDecodeError). -/
inductive DecodeResult where
  | ok (text : List Nat)
  | failed (object : List Nat)
deriving DecidableEq

/-- The decode step of safe_exec_cmd (source line 243): each chunk is decoded
separately, left to right, and the decoded strings are concatenated; the first
chunk that fails to decode raises, carrying that chunk's bytes. -/
def decodeChunks : List (List Nat) → DecodeResult
  | [] => .ok []
  | ch :: rest =>
    match decodeUtf8 ch with
    | none => .failed ch
    | some cps =>
      match decodeChunks rest with
      | .failed o => .failed o
      | .ok t => .ok (cps ++ t)

/-- Outcome of one safe_exec_cmd call: the decoded stdout text and the exit
code, or the propagated decode failure carrying the failing chunk's bytes. -/
inductive Outcome where
  | ok (text : List Nat) (code : Int)
  | decodeFailed (object : List Nat)
deriving DecidableEq

/-- Full observable result of one terminating safe_exec_cmd call. -/
structure ExecResult where
  outcome : Outcome
  chunks : List (List Nat)
  chan : Channel
  iters : Nat
  viaBreak : Bool
  rest : List Tick
deriving DecidableEq

/-- The channel state entering the polling loop: the write direction has been
shut down (source lines 196-198) and the eager pre-loop drain (source line
202) has emptied the stdout buffer. -/
def primed (c : Channel) : Channel := { c with inBuffer := [], writeShut := true }

/-- Packaging of the loop result (source lines 236-245): retrieve the exit
status, decode the accumulated chunks one by one, and return text with exit
code, or propagate the decode failure. -/
def mkResult (lo : LoopOut) : ExecResult :=
  { outcome :=
      match decodeChunks lo.chunks with
      | .failed o => Outcome.decodeFailed o
      | .ok t => Outcome.ok t (recv_exit_status lo.chan)
    chunks := lo.chunks
    chan := lo.chan
    iters := lo.iters
    viaBreak := lo.viaBreak
    rest := lo.rest }

/-- RemoteClient.safe_exec_cmd (source lines 181-245): shut down the write
direction, eagerly drain the stdout buffer into the first chunk, run the
polling loop against the delivery schedule, then retrieve the exit status and
decode.  none models a non-terminating run (fuel exhausted). -/
def safe_exec_cmd (fuel : Nat) (c0 : Channel) (sched : List Tick) : Option ExecResult :=
  (execLoop fuel (primed c0) sched [c0.inBuffer] 0).map mkResult

/-- Fallback values used to project concrete runs in closed statements. -/
def dummyChannel : Channel := ⟨[], [], none, false, false, false⟩

/-- Fallback ExecResult for projecting concrete runs in closed statements. -/
def dummyResult : ExecResult := ⟨Outcome.ok [] 0, [], dummyChannel, 0, false, []⟩

/-- Projection of a concrete safe_exec_cmd run for closed statements. -/
def getRes (o : Option ExecResult) : ExecResult := o.getD dummyResult

/-- The world a command meets when dispatched: the fresh channel paramiko
returns from exec_command and the transport schedule of its run. -/
structure CmdWorld where
  chan : Channel
  sched : List Tick
deriving DecidableEq

/-- How a run of execute_commands ended: all commands completed, or it hung on
a command, or a decode error raised out of safe_exec_cmd on a command. -/
inductive RunHalt where
  | ok
  | hung (cmd : String)
  | raised (cmd : String) (object : List Nat)
deriving DecidableEq

/-- Observable log of one execute_commands run: the commands dispatched in
order, the stdout texts printed in order, and how the run ended.  The Python
method returns None; this log is everything it makes observable, and it
contains no exit codes. -/
structure RunLog where
  dispatched : List String
  printed : List (List Nat)
  halt : RunHalt
deriving DecidableEq

/-- RemoteClient.execute_commands (source lines 247-255): for each command in
order, dispatch it (obtaining the fresh channel and schedule the environment
assigns to it), run safe_exec_cmd, print the stdout text, and discard the exit
code.  A raised decode error or a hang stops the sequence; exit codes never
do. -/
def execute_commands (env : String → CmdWorld) (fuel : Nat) : List String → RunLog
  | [] => ⟨[], [], .ok⟩
  | cmd :: rest =>
    match safe_exec_cmd fuel (env cmd).chan (env cmd).sched with
    | none => ⟨[cmd], [], .hung cmd⟩
    | some r =>
      match r.outcome with
      | .decodeFailed o => ⟨[cmd], [], .raised cmd o⟩
      | .ok txt _ =>
        let tail := execute_commands env fuel rest
        ⟨cmd :: tail.dispatched, txt :: tail.printed, tail.halt⟩

/-- The outcome safe_exec_cmd produces for one command under an environment. -/
def cmdOutcome (env : String → CmdWorld) (fuel : Nat) (cmd : String) : Option Outcome :=
  (safe_exec_cmd fuel (env cmd).chan (env cmd).sched).map (·.outcome)

/-- The command's run terminates and raises no decode error (its exit code may
be anything). -/
def runsOk (env : String → CmdWorld) (fuel : Nat) (cmd : String) : Bool :=
  match cmdOutcome env fuel cmd with
  | some (.ok _ _) => true
  | _ => false

/-- The stdout text safe_exec_cmd captures for one command. -/
def textOf (env : String → CmdWorld) (fuel : Nat) (cmd : String) : List Nat :=
  match cmdOutcome env fuel cmd with
  | some (.ok t _) => t
  | _ => []

/-! ### Concrete channels, schedules and environments used in closed runs -/

/-- A fresh open channel with nothing buffered. -/
def chanEmpty : Channel := ⟨[], [], none, false, false, false⟩

/-- Channel for the C1 witness run: one byte already buffered at entry. -/
def chanC1 : Channel := ⟨[104], [], none, false, false, false⟩

/-- Schedule for the C1 witness run: output split across two ready chunks
separated by an idle tick and a stderr-only tick, then exit status with the
last chunk, then the close. -/
def schedC1 : List Tick :=
  [⟨[.out [1, 2]], []⟩, ⟨[], []⟩, ⟨[.err [9]], []⟩, ⟨[.out [3], .exit 0], []⟩,
   ⟨[.close], []⟩]

/-- Schedule delivering the two-byte UTF-8 encoding of U+00E9 split across two
ready chunks, then the exit status. -/
def schedC4 : List Tick :=
  [⟨[.out [195]], []⟩, ⟨[.out [169]], []⟩, ⟨[.exit 0], []⟩]

/-- Channel with one decodable byte already buffered. -/
def chanC5 : Channel := ⟨[65], [], none, false, false, false⟩

/-- Schedule delivering an undecodable stray continuation byte, then exit. -/
def schedC5 : List Tick := [⟨[.out [128]], []⟩, ⟨[.exit 0], []⟩]

/-- Channel whose initially buffered byte 255 is undecodable. -/
def chanC5w : Channel := ⟨[255], [], none, false, false, false⟩

/-- Schedule delivering only the exit status. -/
def schedC5w : List Tick := [⟨[.exit 0], []⟩]

/-- Schedule with stderr traffic before the output and the exit status. -/
def schedC6 : List Tick := [⟨[.err [7, 8]], []⟩, ⟨[.out [1]], []⟩, ⟨[.exit 0], []⟩]

/-- Schedule where the remote close arrives between the reads and the break
check of the final iteration. -/
def schedC8 : List Tick := [⟨[.out [2]], []⟩, ⟨[.exit 0], [.close]⟩]

/-- Schedule where the channel closes without an exit status ever arriving. -/
def schedC9 : List Tick := [⟨[.close], []⟩]

/-- Schedule delivering one byte together with exit status 7. -/
def schedC9w : List Tick := [⟨[.out [1], .exit 7], []⟩]

/-- A one-command world: the command prints the given text and exits with the
given code over a fresh channel. -/
def quickWorld (text : List Nat) (code : Int) : CmdWorld :=
  ⟨chanEmpty, [⟨[.out text], []⟩, ⟨[.exit code], []⟩]⟩

/-- Environment giving every command the same output but the chosen exit
code. -/
def envExit (k : Int) : String → CmdWorld := fun _ => quickWorld [104] k

/-- Environment with three distinct commands, two of which exit nonzero. -/
def envABC : String → CmdWorld := fun cmd =>
  if cmd = "a" then quickWorld [65] 0
  else if cmd = "b" then quickWorld [66] 1
  else quickWorld [67] 2

/-! ### Bookkeeping lemmas about actions and deliveries -/

theorem outsOfActs_cons (a : Action) (as : List Action) :
    outsOfActs (a :: as) = actionOuts a ++ outsOfActs as := by
  simp [outsOfActs]

theorem outsOfActs_append (xs ys : List Action) :
    outsOfActs (xs ++ ys) = outsOfActs xs ++ outsOfActs ys := by
  simp [outsOfActs]

theorem schedActions_cons (t : Tick) (sched : List Tick) :
    schedActions (t :: sched) = tickActions t ++ schedActions sched := by
  simp [schedActions]

theorem outsOf_nil : outsOf [] = [] := rfl

theorem outsOf_cons (t : Tick) (sched : List Tick) :
    outsOf (t :: sched) = outsOfActs (tickActions t) ++ outsOf sched := by
  simp [outsOf, schedActions_cons, outsOfActs_append]

theorem hasExit_append (xs ys : List Action) :
    hasExit (xs ++ ys) = (hasExit xs || hasExit ys) := by
  simp [hasExit, List.any_append]

theorem hasClose_append (xs ys : List Action) :
    hasClose (xs ++ ys) = (hasClose xs || hasClose ys) := by
  simp [hasClose, List.any_append]

theorem inBuffer_eq_nil_of_not_ready {c : Channel} (h : recv_ready c = false) :
    c.inBuffer = [] := by
  simpa [recv_ready] using h

theorem errBuffer_eq_nil_of_not_ready {c : Channel} (h : recv_stderr_ready c = false) :
    c.errBuffer = [] := by
  simpa [recv_stderr_ready] using h

theorem loopCond_false {c : Channel} (h : loopCond c = false) :
    c.closed = true ∧ c.inBuffer = [] ∧ c.errBuffer = [] := by
  simp only [loopCond, Bool.or_eq_false_iff, Bool.not_eq_false'] at h
  exact ⟨h.1.1, inBuffer_eq_nil_of_not_ready h.1.2, errBuffer_eq_nil_of_not_ready h.2⟩

theorem breakCond_true {c : Channel} {got : Bool} (h : breakCond c got = true) :
    got = false ∧ c.exitStatus.isSome = true ∧ c.inBuffer = [] ∧ c.errBuffer = [] := by
  simp only [breakCond, Bool.and_eq_true, Bool.not_eq_true', exit_status_ready] at h
  exact ⟨h.1.1.1, h.1.1.2, inBuffer_eq_nil_of_not_ready h.2,
    errBuffer_eq_nil_of_not_ready h.1.2⟩

/-! ### Effect lemmas for transport deliveries -/

theorem applyAction_fields (c : Channel) (a : Action) :
    (applyAction c a).inBuffer = c.inBuffer ++ actionOuts a ∧
    (applyAction c a).closed = (c.closed || hasClose [a]) ∧
    (applyAction c a).exitStatus.isSome = (c.exitStatus.isSome || hasExit [a]) ∧
    (applyAction c a).writeShut = c.writeShut := by
  cases a <;> simp [applyAction, actionOuts, hasClose, hasExit]

theorem applyActions_inBuffer (as : List Action) :
    ∀ c : Channel, (applyActions c as).inBuffer = c.inBuffer ++ outsOfActs as := by
  induction as with
  | nil => intro c; simp [applyActions, outsOfActs]
  | cons a as ih =>
    intro c
    have h1 : applyActions c (a :: as) = applyActions (applyAction c a) as := rfl
    rw [h1, ih, (applyAction_fields c a).1, outsOfActs_cons, List.append_assoc]

theorem applyActions_closed (as : List Action) :
    ∀ c : Channel, (applyActions c as).closed = (c.closed || hasClose as) := by
  induction as with
  | nil => intro c; simp [applyActions, hasClose]
  | cons a as ih =>
    intro c
    have h1 : applyActions c (a :: as) = applyActions (applyAction c a) as := rfl
    rw [h1, ih, (applyAction_fields c a).2.1]
    cases a <;> simp [hasClose, Bool.or_assoc]

theorem applyActions_exitSome (as : List Action) :
    ∀ c : Channel, (applyActions c as).exitStatus.isSome = (c.exitStatus.isSome || hasExit as) := by
  induction as with
  | nil => intro c; simp [applyActions, hasExit]
  | cons a as ih =>
    intro c
    have h1 : applyActions c (a :: as) = applyActions (applyAction c a) as := rfl
    rw [h1, ih, (applyAction_fields c a).2.2.1]
    cases a <;> simp [hasExit, Bool.or_assoc]

theorem applyActions_writeShut (as : List Action) :
    ∀ c : Channel, (applyActions c as).writeShut = c.writeShut := by
  induction as with
  | nil => intro c; rfl
  | cons a as ih =>
    intro c
    have h1 : applyActions c (a :: as) = applyActions (applyAction c a) as := rfl
    rw [h1, ih, (applyAction_fields c a).2.2.2]

/-! ### Effect lemmas for the read phase and one loop iteration -/

theorem readPhase_fields (c : Channel) :
    (readPhase c).1.inBuffer = [] ∧
    (readPhase c).1.errBuffer = [] ∧
    (readPhase c).2.1.flatten = c.inBuffer ∧
    (readPhase c).1.exitStatus = c.exitStatus ∧
    (readPhase c).1.closed = c.closed ∧
    (readPhase c).1.writeShut = c.writeShut := by
  cases ho : recv_ready c <;> cases he : recv_stderr_ready c
  · simp [readPhase, ho, he, inBuffer_eq_nil_of_not_ready ho, errBuffer_eq_nil_of_not_ready he]
  · simp [readPhase, ho, he, inBuffer_eq_nil_of_not_ready ho]
  · have h2 : c.errBuffer = [] := errBuffer_eq_nil_of_not_ready he
    simp [readPhase, ho, recv_stderr_ready, h2]
  · have h2 : c.errBuffer.isEmpty = false := by simpa [recv_stderr_ready] using he
    simp [readPhase, ho, recv_stderr_ready, h2]

theorem readPhase_got (c : Channel) :
    (readPhase c).2.2 = (recv_ready c || recv_stderr_ready c) := by
  cases ho : recv_ready c <;> cases he : recv_stderr_ready c
  · simp [readPhase, ho, he]
  · simp [readPhase, ho, he]
  · have h2 : c.errBuffer = [] := errBuffer_eq_nil_of_not_ready he
    simp [readPhase, ho, he, recv_stderr_ready, h2]
  · have h2 : c.errBuffer.isEmpty = false := by simpa [recv_stderr_ready] using he
    simp [readPhase, ho, he, recv_stderr_ready, h2]

theorem loopIter_inBuffer (c : Channel) (t : Tick) :
    (loopIter c t).1.inBuffer = outsOfActs t.afterRead := by
  simp [loopIter, applyActions_inBuffer, (readPhase_fields (applyActions c t.atSelect)).1]

theorem loopIter_chunks (c : Channel) (t : Tick) :
    (loopIter c t).2.1.flatten = c.inBuffer ++ outsOfActs t.atSelect := by
  simp [loopIter, (readPhase_fields (applyActions c t.atSelect)).2.2.1,
    applyActions_inBuffer]

theorem loopIter_closed (c : Channel) (t : Tick) :
    (loopIter c t).1.closed = (c.closed || hasClose (tickActions t)) := by
  simp [loopIter, applyActions_closed, (readPhase_fields (applyActions c t.atSelect)).2.2.2.2.1,
    tickActions, hasClose_append, Bool.or_assoc]

theorem loopIter_exitSome (c : Channel) (t : Tick) :
    (loopIter c t).1.exitStatus.isSome = (c.exitStatus.isSome || hasExit (tickActions t)) := by
  have h := (readPhase_fields (applyActions c t.atSelect)).2.2.2.1
  simp [loopIter, applyActions_exitSome, h, tickActions, hasExit_append, Bool.or_assoc]

theorem loopIter_writeShut (c : Channel) (t : Tick) :
    (loopIter c t).1.writeShut = c.writeShut := by
  simp [loopIter, applyActions_writeShut, (readPhase_fields (applyActions c t.atSelect)).2.2.2.2.2]

theorem loopIter_got (c : Channel) (t : Tick) :
    (loopIter c t).2.2 =
      (recv_ready (applyActions c t.atSelect) || recv_stderr_ready (applyActions c t.atSelect)) := by
  simp [loopIter, readPhase_got]

/-! ### Ordered-delivery lemmas -/

theorem orderedActs_of_outs_nil : ∀ as : List Action, outsOfActs as = [] → orderedActs as = true := by
  intro as
  induction as with
  | nil => intro _; rfl
  | cons a rest ih =>
    intro h
    rw [outsOfActs_cons] at h
    have h2 : outsOfActs rest = [] := (List.append_eq_nil.mp h).2
    cases a <;> simp [orderedActs, h2] <;> exact ih h2

theorem orderedActs_append_right :
    ∀ xs ys : List Action, orderedActs (xs ++ ys) = true → orderedActs ys = true := by
  intro xs
  induction xs with
  | nil => intro ys h; simpa using h
  | cons a xs ih =>
    intro ys h
    cases a with
    | out bs => exact ih ys (by simpa [orderedActs] using h)
    | err bs => exact ih ys (by simpa [orderedActs] using h)
    | exit e =>
      have : outsOfActs (xs ++ ys) = [] := by simpa [orderedActs] using h
      exact orderedActs_of_outs_nil ys (List.append_eq_nil.mp ((outsOfActs_append xs ys) ▸ this)).2
    | close =>
      have : outsOfActs (xs ++ ys) = [] := by simpa [orderedActs] using h
      exact orderedActs_of_outs_nil ys (List.append_eq_nil.mp ((outsOfActs_append xs ys) ▸ this)).2

theorem orderedActs_done :
    ∀ xs ys : List Action, orderedActs (xs ++ ys) = true → hasDone xs = true →
      outsOfActs ys = [] := by
  intro xs
  induction xs with
  | nil => intro ys _ hd; simp [hasDone, hasExit, hasClose] at hd
  | cons a xs ih =>
    intro ys h hd
    cases a with
    | out bs =>
      have hd2 : hasDone xs = true := by
        simpa [hasDone, hasExit, hasClose] using hd
      exact ih ys (by simpa [orderedActs] using h) hd2
    | err bs =>
      have hd2 : hasDone xs = true := by
        simpa [hasDone, hasExit, hasClose] using hd
      exact ih ys (by simpa [orderedActs] using h) hd2
    | exit e =>
      have : outsOfActs (xs ++ ys) = [] := by simpa [orderedActs] using h
      exact (List.append_eq_nil.mp ((outsOfActs_append xs ys) ▸ this)).2
    | close =>
      have : outsOfActs (xs ++ ys) = [] := by simpa [orderedActs] using h
      exact (List.append_eq_nil.mp ((outsOfActs_append xs ys) ▸ this)).2

/-- Invariant carried through the loop induction: the still-pending deliveries
are ordered, and if the channel has already seen the exit status or a close
then no stdout bytes are still pending. -/
def InvP (c : Channel) (sched : List Tick) : Prop :=
  orderedActs (schedActions sched) = true ∧
  ((c.closed || c.exitStatus.isSome) = true → outsOf sched = [])

theorem InvP_nil (c : Channel) : InvP c [] := ⟨rfl, fun _ => rfl⟩

theorem InvP_step (c : Channel) (t : Tick) (rest : List Tick) (h : InvP c (t :: rest)) :
    InvP (loopIter c t).1 rest := by
  obtain ⟨hord, hdone⟩ := h
  rw [schedActions_cons] at hord
  refine ⟨orderedActs_append_right _ _ hord, ?_⟩
  intro hcs
  by_cases hd : hasDone (tickActions t) = true
  · exact orderedActs_done _ _ hord hd
  · have hne : hasExit (tickActions t) = false ∧ hasClose (tickActions t) = false := by
      cases hex : hasExit (tickActions t) <;> cases hcl : hasClose (tickActions t) <;>
        simp_all [hasDone]
    rw [loopIter_closed, loopIter_exitSome, hne.1, hne.2, Bool.or_false, Bool.or_false] at hcs
    have h0 := hdone hcs
    rw [outsOf_cons] at h0
    exact (List.append_eq_nil.mp h0).2

/-! ### Soundness of the polling loop -/

theorem execLoop_sound (fuel : Nat) :
    ∀ (c : Channel) (sched : List Tick) (acc : List (List Nat)) (n : Nat) (lo : LoopOut),
      execLoop fuel c sched acc n = some lo →
      (∃ used, sched = used ++ lo.rest ∧
        lo.chunks.flatten = acc.flatten ++ c.inBuffer ++ outsOf used) ∧
      lo.chan.inBuffer = [] ∧ lo.chan.errBuffer = [] ∧ lo.chan.closed = true ∧
      lo.chan.writeShut = c.writeShut ∧ n ≤ lo.iters ∧
      (InvP c sched → outsOf lo.rest = []) := by
  induction fuel with
  | zero => intro c sched acc n lo h; simp [execLoop] at h
  | succ fuel ih =>
    intro c sched acc n lo h
    simp only [execLoop] at h
    by_cases hc : loopCond c = true
    · rw [if_pos hc] at h
      by_cases hb : breakCond (loopIter c (sched.headD idleTick)).1
          (loopIter c (sched.headD idleTick)).2.2 = true
      · rw [if_pos hb] at h
        simp only [Option.some.injEq] at h
        subst h
        obtain ⟨hgot, hexit, hin, herr⟩ := breakCond_true hb
        cases sched with
        | nil =>
          refine ⟨⟨[], by simp, ?_⟩, ?_, ?_, rfl, ?_, Nat.le_succ n, fun _ => rfl⟩
          · simp [loopIter_chunks, idleTick, outsOfActs, outsOf_nil]
          · simpa [closeChan, shutdown_read] using hin
          · simpa [closeChan, shutdown_read] using herr
          · simp [closeChan, shutdown_read, loopIter_writeShut]
        | cons t rest =>
          have houts : outsOfActs t.afterRead = [] := by
            rw [← loopIter_inBuffer c t]; simpa using hin
          refine ⟨⟨[t], by simp, ?_⟩, ?_, ?_, rfl, ?_, Nat.le_succ n, ?_⟩
          · simp [loopIter_chunks, outsOf_cons, outsOf_nil, tickActions, outsOfActs_append,
              houts, List.append_assoc]
          · simpa [closeChan, shutdown_read] using hin
          · simpa [closeChan, shutdown_read] using herr
          · simp [closeChan, shutdown_read, loopIter_writeShut]
          · intro hInv
            have h2 := InvP_step c t rest hInv
            have h3 : ((loopIter c t).1.closed || (loopIter c t).1.exitStatus.isSome) = true := by
              simp at hexit
              simp [hexit]
            exact h2.2 h3
      · rw [if_neg hb] at h
        cases sched with
        | nil =>
          simp only [List.headD_nil, List.tail_nil] at h
          obtain ⟨⟨used1, hs, hflat⟩, hin, herr, hclosed, hwrite, hn, hinv⟩ :=
            ih _ _ _ _ _ h
          obtain ⟨hu, hr⟩ := List.nil_eq_append_iff.mp hs
          subst hu
          refine ⟨⟨[], by simp [hr], ?_⟩, hin, herr, hclosed, ?_, Nat.le_of_succ_le hn, ?_⟩
          · simpa [loopIter_chunks, loopIter_inBuffer, idleTick, outsOfActs, outsOf_nil]
              using hflat
          · rw [hwrite, loopIter_writeShut]
          · intro _; exact hinv (InvP_nil _)
        | cons t rest =>
          simp only [List.headD_cons, List.tail_cons] at h
          obtain ⟨⟨used1, hs, hflat⟩, hin, herr, hclosed, hwrite, hn, hinv⟩ :=
            ih _ _ _ _ _ h
          refine ⟨⟨t :: used1, by simp [hs], ?_⟩, hin, herr, hclosed, ?_,
            Nat.le_of_succ_le hn, ?_⟩
          · simpa [loopIter_chunks, loopIter_inBuffer, outsOf_cons, tickActions,
              outsOfActs_append, List.append_assoc] using hflat
          · rw [hwrite, loopIter_writeShut]
          · intro hInv; exact hinv (InvP_step c t rest hInv)
    · rw [if_neg hc] at h
      simp only [Option.some.injEq] at h
      subst h
      have hcf : loopCond c = false := by
        cases h0 : loopCond c
        · rfl
        · exact absurd h0 hc
      obtain ⟨hcl, hin, herr⟩ := loopCond_false hcf
      exact ⟨⟨[], by simp, by simp [hin, outsOf_nil]⟩, hin, herr, hcl, rfl, Nat.le_refl n,
        fun hInv => hInv.2 (by simp [hcl])⟩

/-- If the loop condition holds, at least one more iteration is executed. -/
theorem execLoop_iters_succ (fuel : Nat) (c : Channel) (sched : List Tick)
    (acc : List (List Nat)) (n : Nat) (lo : LoopOut)
    (hc : loopCond c = true) (h : execLoop fuel c sched acc n = some lo) :
    n + 1 ≤ lo.iters := by
  cases fuel with
  | zero => simp [execLoop] at h
  | succ fuel =>
    simp only [execLoop] at h
    rw [if_pos hc] at h
    by_cases hb : breakCond (loopIter c (sched.headD idleTick)).1
        (loopIter c (sched.headD idleTick)).2.2 = true
    · rw [if_pos hb] at h
      simp only [Option.some.injEq] at h
      subst h
      simp
    · rw [if_neg hb] at h
      exact (execLoop_sound fuel _ _ _ _ _ h).2.2.2.2.2.1

theorem outsOf_append (s1 s2 : List Tick) :
    outsOf (s1 ++ s2) = outsOf s1 ++ outsOf s2 := by
  induction s1 with
  | nil => simp [outsOf_nil]
  | cons t ts ih => simp [outsOf_cons, ih, List.append_assoc]

theorem decodeChunks_failed :
    ∀ chs : List (List Nat), ∀ o : List Nat, decodeChunks chs = .failed o →
      o ∈ chs ∧ decodeUtf8 o = none := by
  intro chs
  induction chs with
  | nil => intro o h; simp [decodeChunks] at h
  | cons ch rest ih =>
    intro o h
    unfold decodeChunks at h
    cases hd : decodeUtf8 ch with
    | none =>
      rw [hd] at h
      simp only [DecodeResult.failed.injEq] at h
      subst h
      exact ⟨by simp, hd⟩
    | some cps =>
      rw [hd] at h
      cases hrest : decodeChunks rest with
      | failed o2 =>
        rw [hrest] at h
        simp only [DecodeResult.failed.injEq] at h
        subst h
        exact ⟨List.mem_cons_of_mem _ (ih o2 hrest).1, (ih o2 hrest).2⟩
      | ok t => rw [hrest] at h; simp at h

theorem runsOk_iff (env : String → CmdWorld) (fuel : Nat) (cmd : String) :
    runsOk env fuel cmd = true ↔
      ∃ t c, cmdOutcome env fuel cmd = some (Outcome.ok t c) := by
  unfold runsOk
  cases h : cmdOutcome env fuel cmd with
  | none => simp
  | some oc => cases oc <;> simp

theorem execute_commands_cons_ok (env : String → CmdWorld) (fuel : Nat)
    (cmd : String) (rest : List String) (txt : List Nat) (code : Int)
    (hoc : cmdOutcome env fuel cmd = some (Outcome.ok txt code)) :
    execute_commands env fuel (cmd :: rest) =
      ⟨cmd :: (execute_commands env fuel rest).dispatched,
       txt :: (execute_commands env fuel rest).printed,
       (execute_commands env fuel rest).halt⟩ := by
  obtain ⟨r, hres, hout⟩ := Option.map_eq_some'.mp hoc
  simp [execute_commands, hres, hout]

theorem execute_commands_ok_log (env : String → CmdWorld) (fuel : Nat) :
    ∀ cmds : List String, (∀ cmd ∈ cmds, runsOk env fuel cmd = true) →
      execute_commands env fuel cmds =
        ⟨cmds, cmds.map (textOf env fuel), RunHalt.ok⟩ := by
  intro cmds
  induction cmds with
  | nil => intro _; rfl
  | cons cmd rest ih =>
    intro h
    obtain ⟨txt, code, hoc⟩ := (runsOk_iff env fuel cmd).mp (h cmd (by simp))
    have h2 : ∀ x ∈ rest, runsOk env fuel x = true := fun x hx => h x (by simp [hx])
    have htext : textOf env fuel cmd = txt := by
      unfold textOf
      rw [hoc]
    rw [execute_commands_cons_ok env fuel cmd rest txt code hoc, ih h2]
    simp [htext]

theorem execute_commands_halt_ok_iff (env : String → CmdWorld) (fuel : Nat) :
    ∀ cmds : List String,
      ((execute_commands env fuel cmds).halt = RunHalt.ok ↔
        ∀ cmd ∈ cmds, runsOk env fuel cmd = true) := by
  intro cmds
  induction cmds with
  | nil => simp [execute_commands]
  | cons cmd rest ih =>
    constructor
    · intro h
      cases hres : safe_exec_cmd fuel (env cmd).chan (env cmd).sched with
      | none => simp [execute_commands, hres] at h
      | some r =>
        cases hout : r.outcome with
        | decodeFailed o => simp [execute_commands, hres, hout] at h
        | ok txt code =>
          have hoc : cmdOutcome env fuel cmd = some (Outcome.ok txt code) := by
            unfold cmdOutcome
            rw [hres, Option.map_some', hout]
          have h3 : (execute_commands env fuel rest).halt = RunHalt.ok := by
            rw [execute_commands_cons_ok env fuel cmd rest txt code hoc] at h
            exact h
          intro x hx
          rcases List.mem_cons.mp hx with hx1 | hx2
          · subst hx1
            exact (runsOk_iff env fuel x).mpr ⟨txt, code, hoc⟩
          · exact (ih.mp h3) x hx2
    · intro h
      rw [execute_commands_ok_log env fuel (cmd :: rest) h]

/-! ### Claim C1 -/

/-- C1: in every terminating execution of safe_exec_cmd whose transport
delivers bytes in order (all stdout bytes precede the exit-status and close
deliveries), the returned stdout byte accumulation is exactly the initially
buffered stdout bytes followed by every stdout byte the transport delivers:
no gaps, no duplication, no truncation, regardless of how the deliveries are
chunked across ready ticks and interspersed with idle (not-ready) ticks, and
in particular when the total output spans many small chunks. -/
theorem C1_stdout_accumulation_complete (fuel : Nat) (c0 : Channel)
    (sched : List Tick) (r : ExecResult)
    (h : safe_exec_cmd fuel c0 sched = some r)
    (hord : orderedDelivery c0 sched = true) :
    r.chunks.flatten = c0.inBuffer ++ outsOf sched := by
  obtain ⟨lo, hlo, hr⟩ := Option.map_eq_some'.mp h
  subst hr
  obtain ⟨⟨used, hs, hflat⟩, hin, herr, hclosed, hwrite, hn, hinv⟩ :=
    execLoop_sound fuel _ _ _ _ _ hlo
  simp only [orderedDelivery, Bool.and_eq_true, Bool.not_eq_true'] at hord
  obtain ⟨hncl, hcond⟩ := hord
  have hInv : InvP (primed c0) sched := by
    constructor
    · cases hex : c0.exitStatus.isSome
      · rw [hex] at hcond
        simpa using hcond
      · rw [hex] at hcond
        have h0 : outsOfActs (schedActions sched) = [] := by simpa using hcond
        exact orderedActs_of_outs_nil _ h0
    · intro hcs
      have hps : (primed c0).closed = c0.closed := rfl
      have hpe : (primed c0).exitStatus = c0.exitStatus := rfl
      rw [hps, hpe, hncl, Bool.false_or] at hcs
      rw [hcs] at hcond
      have h0 : outsOfActs (schedActions sched) = [] := by simpa using hcond
      exact h0
  have hrest : outsOf lo.rest = [] := hinv hInv
  have hused : outsOf sched = outsOf used := by
    rw [hs, outsOf_append, hrest, List.append_nil]
  have hres : (mkResult lo).chunks = lo.chunks := rfl
  rw [hres, hflat, hused]
  simp [primed]

/-- Witness for C1: on the concrete ordered run the accumulation is exactly
the initial byte followed by all delivered stdout bytes. -/
theorem C1_stdout_accumulation_complete_witness :
    (getRes (safe_exec_cmd 6 chanC1 schedC1)).chunks.flatten =
      [104] ++ outsOf schedC1 :=
  C1_stdout_accumulation_complete 6 chanC1 schedC1
    (getRes (safe_exec_cmd 6 chanC1 schedC1)) (by decide) (by decide)

/-! ### Claim C2 -/

/-- C2: safe_exec_cmd never returns while the channel's stdout or stderr
buffer holds unread bytes: every terminating run ends with both buffers
empty.  Moreover, if the first tick makes the exit status available while
either buffer is non-empty at the select point (and does not close the
channel), the loop cannot stop at that iteration: the read obtains data, the
break condition fails, and at least one further iteration runs (at least two
in total). -/
theorem C2_no_return_with_buffered_bytes (fuel : Nat) (c0 : Channel) (t : Tick)
    (rest : List Tick) (r : ExecResult)
    (h : safe_exec_cmd fuel c0 (t :: rest) = some r) :
    r.chan.inBuffer = [] ∧ r.chan.errBuffer = [] ∧
    ((exit_status_ready (applyActions (primed c0) t.atSelect) = true ∧
      (recv_ready (applyActions (primed c0) t.atSelect) = true ∨
        recv_stderr_ready (applyActions (primed c0) t.atSelect) = true) ∧
      (loopIter (primed c0) t).1.closed = false) → 2 ≤ r.iters) := by
  obtain ⟨lo, hlo, hr⟩ := Option.map_eq_some'.mp h
  subst hr
  obtain ⟨_, hin, herr, _, _, _, _⟩ := execLoop_sound fuel _ _ _ _ _ hlo
  refine ⟨hin, herr, ?_⟩
  rintro ⟨hex, hready, hncl⟩
  cases fuel with
  | zero => simp [execLoop] at hlo
  | succ fuel =>
    have hpcl : (primed c0).closed = false := by
      rw [loopIter_closed] at hncl
      exact (Bool.or_eq_false_iff.mp hncl).1
    have hlc : loopCond (primed c0) = true := by
      simp [loopCond, hpcl]
    have hgot : (loopIter (primed c0) t).2.2 = true := by
      rw [loopIter_got]
      rcases hready with h1 | h1 <;> simp [h1]
    have hbc : breakCond (loopIter (primed c0) t).1 (loopIter (primed c0) t).2.2 = false := by
      rw [hgot]
      simp [breakCond]
    simp only [execLoop, List.headD_cons, List.tail_cons] at hlo
    rw [if_pos hlc, hbc] at hlo
    simp only [Bool.false_eq_true, if_false] at hlo
    have hlc2 : loopCond (loopIter (primed c0) t).1 = true := by
      simp [loopCond, hncl]
    exact execLoop_iters_succ fuel _ _ _ _ _ hlc2 hlo

/-- Witness for C2: the exit status and a stdout byte arrive in the same
tick; the loop drains and takes a second iteration before breaking, and both
buffers are empty at return. -/
theorem C2_no_return_with_buffered_bytes_witness :
    (getRes (safe_exec_cmd 3 ⟨[], [], none, false, false, false⟩
      [⟨[.out [5], .exit 0], []⟩])).chan.inBuffer = [] ∧
    (getRes (safe_exec_cmd 3 ⟨[], [], none, false, false, false⟩
      [⟨[.out [5], .exit 0], []⟩])).chan.errBuffer = [] ∧
    2 ≤ (getRes (safe_exec_cmd 3 ⟨[], [], none, false, false, false⟩
      [⟨[.out [5], .exit 0], []⟩])).iters :=
  have h := C2_no_return_with_buffered_bytes 3 ⟨[], [], none, false, false, false⟩
    ⟨[.out [5], .exit 0], []⟩ [] _ (by decide)
  ⟨h.1, h.2.1, h.2.2 (by decide)⟩

/-! ### Claim C3 -/

/-- Counterexample to C3: execute_commands does not return the collected
ExecutionResults.  Two environments whose single command yields the same
stdout but different exit codes (0 and 1) produce literally identical
execute_commands output — everything the method makes observable, including
the printed texts and halt state, is equal — even though the per-command
results differ in their exit-code component; the Python method returns None
(source lines 247-255 contain no return statement). -/
theorem C3_counterexample :
    execute_commands (envExit 0) 4 ["a"] = execute_commands (envExit 1) 4 ["a"] ∧
    cmdOutcome (envExit 0) 4 "a" = some (Outcome.ok [104] 0) ∧
    cmdOutcome (envExit 1) 4 "a" = some (Outcome.ok [104] 1) := by decide

/-- C3 amended: execute_commands dispatches and executes each command
strictly in input order on the fresh channel the environment assigns to that
command, and prints the captured stdout texts in input order; it returns no
per-command results (exit codes in particular are not surfaced, per the
counterexample). -/
theorem C3_amended_in_order_execution (env : String → CmdWorld) (fuel : Nat)
    (cmds : List String) (h : ∀ cmd ∈ cmds, runsOk env fuel cmd = true) :
    execute_commands env fuel cmds =
      ⟨cmds, cmds.map (textOf env fuel), RunHalt.ok⟩ :=
  execute_commands_ok_log env fuel cmds h

/-- Witness for the amended C3: three commands dispatched and printed in
input order. -/
theorem C3_amended_in_order_execution_witness :
    execute_commands envABC 4 ["a", "b", "c"] =
      ⟨["a", "b", "c"], ["a", "b", "c"].map (textOf envABC 4), RunHalt.ok⟩ :=
  C3_amended_in_order_execution envABC 4 ["a", "b", "c"] (by decide)

/-! ### Claim C4 -/

/-- C4 (code defect): source line 243 decodes each chunk separately instead
of decoding the full accumulated byte sequence.  On this run the two-byte
UTF-8 encoding of U+00E9 is split across two ready chunks: the concatenated
accumulation is valid UTF-8 as a whole (decoding to code point 233), yet
safe_exec_cmd propagates a decode failure carrying the first half of the
split character. -/
theorem C4_split_char_fails_despite_valid_whole :
    (getRes (safe_exec_cmd 4 chanEmpty schedC4)).outcome = Outcome.decodeFailed [195] ∧
    decodeUtf8 ((getRes (safe_exec_cmd 4 chanEmpty schedC4)).chunks.flatten)
      = some [233] := by decide

/-! ### Claim C5 -/

/-- Counterexample to C5: when decoding fails, the propagated error does not
carry the raw byte accumulation — it carries only the failing chunk.  Here
the accumulation is [65, 128] but the error object is [128], and the decoded
text of the first chunk is lost. -/
theorem C5_counterexample :
    (getRes (safe_exec_cmd 4 chanC5 schedC5)).outcome = Outcome.decodeFailed [128] ∧
    (getRes (safe_exec_cmd 4 chanC5 schedC5)).chunks.flatten = [65, 128] ∧
    (getRes (safe_exec_cmd 4 chanC5 schedC5)).outcome ≠
      Outcome.decodeFailed ((getRes (safe_exec_cmd 4 chanC5 schedC5)).chunks.flatten) := by
  decide

/-- C5 amended: for every execution where decoding fails, safe_exec_cmd
propagates a decode error carrying the raw bytes of the first chunk that
fails to decode — one of the accumulated chunks, itself undecodable — rather
than the whole accumulation. -/
theorem C5_amended_error_carries_failing_chunk (fuel : Nat) (c0 : Channel)
    (sched : List Tick) (r : ExecResult) (o : List Nat)
    (h : safe_exec_cmd fuel c0 sched = some r)
    (hfail : r.outcome = Outcome.decodeFailed o) :
    o ∈ r.chunks ∧ decodeUtf8 o = none := by
  obtain ⟨lo, hlo, hr⟩ := Option.map_eq_some'.mp h
  subst hr
  simp only [mkResult] at hfail
  cases hd : decodeChunks lo.chunks with
  | ok t => rw [hd] at hfail; simp at hfail
  | failed o2 =>
    rw [hd] at hfail
    simp only [Outcome.decodeFailed.injEq] at hfail
    subst hfail
    exact decodeChunks_failed lo.chunks o2 hd

/-- Witness for the amended C5: the undecodable eager chunk [255] is carried
by the error and is one of the accumulated chunks. -/
theorem C5_amended_error_carries_failing_chunk_witness :
    [255] ∈ (getRes (safe_exec_cmd 2 chanC5w schedC5w)).chunks ∧
      decodeUtf8 [255] = none :=
  C5_amended_error_carries_failing_chunk 2 chanC5w schedC5w
    (getRes (safe_exec_cmd 2 chanC5w schedC5w)) [255] (by decide) (by decide)

/-! ### Claim C6 -/

/-- C6: stderr is drained whenever it has buffered bytes — the read phase of
every iteration leaves the stderr buffer empty, and so does every terminating
run — and its content is discarded: the returned accumulation consists of the
initially buffered stdout bytes plus exactly the stdout bytes delivered by
the consumed ticks, so no stderr byte ever appears in the result. -/
theorem C6_stderr_drained_and_discarded (fuel : Nat) (c0 : Channel)
    (sched : List Tick) (r : ExecResult)
    (h : safe_exec_cmd fuel c0 sched = some r) :
    (∃ used, sched = used ++ r.rest ∧ r.chunks.flatten = c0.inBuffer ++ outsOf used) ∧
    r.chan.errBuffer = [] ∧
    ∀ c : Channel, (readPhase c).1.errBuffer = [] := by
  obtain ⟨lo, hlo, hr⟩ := Option.map_eq_some'.mp h
  subst hr
  obtain ⟨⟨used, hs, hflat⟩, hin, herr, _, _, _, _⟩ := execLoop_sound fuel _ _ _ _ _ hlo
  refine ⟨⟨used, hs, ?_⟩, herr, fun c => (readPhase_fields c).2.1⟩
  rw [show (mkResult lo).chunks = lo.chunks from rfl, hflat]
  simp [primed]

/-- Witness for C6: a run with stderr traffic ends with the stderr buffer
empty, and a read phase on a channel with only stderr bytes drains them. -/
theorem C6_stderr_drained_and_discarded_witness :
    (getRes (safe_exec_cmd 4 chanEmpty schedC6)).chan.errBuffer = [] ∧
    (readPhase ⟨[], [5], none, false, false, false⟩).1.errBuffer = [] :=
  have h := C6_stderr_drained_and_discarded 4 chanEmpty schedC6
    (getRes (safe_exec_cmd 4 chanEmpty schedC6)) (by decide)
  ⟨h.2.1, h.2.2 ⟨[], [5], none, false, false, false⟩⟩

/-! ### Claim C7 -/

/-- C7: for a command producing zero output whose exit status is already
available at entry (both buffers empty), safe_exec_cmd returns the empty
text with that exit code after at most one loop iteration beyond the eager
drain — and with zero iterations when the channel is already closed at the
first while-check. -/
theorem C7_zero_output_fast_return (fuel : Nat) (c0 : Channel) (e : Int)
    (hin : c0.inBuffer = []) (herr : c0.errBuffer = []) (hex : c0.exitStatus = some e)
    (hfuel : 1 ≤ fuel) :
    safe_exec_cmd fuel c0 [] = some (getRes (safe_exec_cmd fuel c0 [])) ∧
    (getRes (safe_exec_cmd fuel c0 [])).outcome = Outcome.ok [] e ∧
    (getRes (safe_exec_cmd fuel c0 [])).iters ≤ 1 ∧
    (c0.closed = true → (getRes (safe_exec_cmd fuel c0 [])).iters = 0) := by
  obtain ⟨f, rfl⟩ : ∃ f, fuel = f + 1 := ⟨fuel - 1, (Nat.succ_pred_eq_of_pos hfuel).symm⟩
  obtain ⟨inB, errB, ex, cl, rs, ws⟩ := c0
  dsimp only at hin herr hex
  subst hin
  subst herr
  subst hex
  cases cl
  · have hcomp : safe_exec_cmd (f + 1) ⟨[], [], some e, false, rs, ws⟩ [] =
        some ⟨Outcome.ok [] e, [[]], ⟨[], [], some e, true, true, true⟩, 1, true, []⟩ := rfl
    rw [hcomp]
    simp [getRes]
  · have hcomp : safe_exec_cmd (f + 1) ⟨[], [], some e, true, rs, ws⟩ [] =
        some ⟨Outcome.ok [] e, [[]], ⟨[], [], some e, true, rs, true⟩, 0, false, []⟩ := rfl
    rw [hcomp]
    simp [getRes]

/-- Witness for C7: channel already closed with exit status 3 buffered:
result is the empty text with code 3 after zero loop iterations. -/
theorem C7_zero_output_fast_return_witness :
    (getRes (safe_exec_cmd 1 ⟨[], [], some 3, true, false, false⟩ [])).outcome
      = Outcome.ok [] 3 ∧
    (getRes (safe_exec_cmd 1 ⟨[], [], some 3, true, false, false⟩ [])).iters = 0 :=
  have h := C7_zero_output_fast_return 1 ⟨[], [], some 3, true, false, false⟩ 3
    rfl rfl rfl (by decide)
  ⟨h.2.1, h.2.2.2 rfl⟩

/-! ### Claim C8 -/

/-- C8: on every terminating run of safe_exec_cmd the write direction was
shut down at the start and is still shut at return, the channel is closed at
return, and neither direction is open — the channel is never left half-open,
on either loop-exit path (the conclusion holds whether the loop ended by the
inner break or by the while-condition turning false). -/
theorem C8_channel_fully_closed_on_return (fuel : Nat) (c0 : Channel)
    (sched : List Tick) (r : ExecResult)
    (h : safe_exec_cmd fuel c0 sched = some r) :
    r.chan.closed = true ∧ r.chan.writeShut = true ∧
    read_open r.chan = false ∧ write_open r.chan = false := by
  obtain ⟨lo, hlo, hr⟩ := Option.map_eq_some'.mp h
  subst hr
  obtain ⟨_, _, _, hclosed, hwrite, _, _⟩ := execLoop_sound fuel _ _ _ _ _ hlo
  have hw : lo.chan.writeShut = true := by rw [hwrite]; rfl
  have hch : (mkResult lo).chan = lo.chan := rfl
  rw [hch]
  exact ⟨hclosed, hw, by simp [read_open, hclosed], by simp [write_open, hclosed]⟩

/-- Witness for C8: a run whose close arrives in the race window between the
reads and the break check still returns with the channel fully closed. -/
theorem C8_channel_fully_closed_on_return_witness :
    (getRes (safe_exec_cmd 4 chanEmpty schedC8)).chan.closed = true ∧
    (getRes (safe_exec_cmd 4 chanEmpty schedC8)).chan.writeShut = true ∧
    read_open (getRes (safe_exec_cmd 4 chanEmpty schedC8)).chan = false ∧
    write_open (getRes (safe_exec_cmd 4 chanEmpty schedC8)).chan = false :=
  C8_channel_fully_closed_on_return 4 chanEmpty schedC8 _ (by decide)

/-! ### Claim C9 -/

/-- Counterexample to C9: when the channel closes without an exit status ever
arriving, the loop ends through the while-condition, and safe_exec_cmd
returns normally with paramiko's default exit code -1: the call does not fail
— there is no ExitStatusUnavailable (or any other) failure path for a missing
exit status in the code. -/
theorem C9_counterexample :
    (getRes (safe_exec_cmd 3 chanEmpty schedC9)).outcome = Outcome.ok [] (-1) ∧
    (getRes (safe_exec_cmd 3 chanEmpty schedC9)).chan.exitStatus = none := by decide

/-- C9 amended: after the loop, safe_exec_cmd obtains the exit code from
channel.recv_exit_status, which returns the received status when one is
available and the library default -1 when the channel finished without one;
no failure is raised in the latter case. -/
theorem C9_amended_exit_code_default (fuel : Nat) (c0 : Channel)
    (sched : List Tick) (r : ExecResult) (t : List Nat) (code : Int)
    (h : safe_exec_cmd fuel c0 sched = some r)
    (hok : r.outcome = Outcome.ok t code) :
    r.chan.exitStatus = some code ∨ (r.chan.exitStatus = none ∧ code = -1) := by
  obtain ⟨lo, hlo, hr⟩ := Option.map_eq_some'.mp h
  subst hr
  simp only [mkResult] at hok
  cases hd : decodeChunks lo.chunks with
  | failed o => rw [hd] at hok; simp at hok
  | ok t2 =>
    rw [hd] at hok
    simp only [Outcome.ok.injEq] at hok
    cases hex : lo.chan.exitStatus with
    | some e =>
      left
      rw [show (mkResult lo).chan = lo.chan from rfl, hex, ← hok.2]
      simp [recv_exit_status, hex]
    | none =>
      right
      refine ⟨hex, ?_⟩
      rw [← hok.2]
      simp [recv_exit_status, hex]

/-- Witness for the amended C9: a run whose exit status 7 arrived returns
exactly that code. -/
theorem C9_amended_exit_code_default_witness :
    (getRes (safe_exec_cmd 3 chanEmpty schedC9w)).chan.exitStatus = some 7 ∨
    ((getRes (safe_exec_cmd 3 chanEmpty schedC9w)).chan.exitStatus = none ∧
      (7 : Int) = -1) :=
  C9_amended_exit_code_default 3 chanEmpty schedC9w _ [1] 7 (by decide) (by decide)

/-! ### Claim C10 -/

/-- C10: execute_commands runs every command of the list, in input order,
regardless of the exit codes of earlier commands: the run completes (and then
every command was dispatched in order) exactly when each command's
safe_exec_cmd call terminates without raising — a nonzero exit code never
halts the sequence, only a hang or a raised decode error does.  Exit codes
are discarded: the run log is everything the method makes observable and
carries no exit codes. -/
theorem C10_nonzero_exit_does_not_halt (env : String → CmdWorld) (fuel : Nat)
    (cmds : List String) :
    ((execute_commands env fuel cmds).halt = RunHalt.ok ↔
      ∀ cmd ∈ cmds, runsOk env fuel cmd = true) ∧
    ((∀ cmd ∈ cmds, runsOk env fuel cmd = true) →
      (execute_commands env fuel cmds).dispatched = cmds) :=
  ⟨execute_commands_halt_ok_iff env fuel cmds,
   fun h => by rw [execute_commands_ok_log env fuel cmds h]⟩

/-- Witness for C10: two commands exiting with the nonzero codes 1 and 2 are
both dispatched, in order. -/
theorem C10_nonzero_exit_does_not_halt_witness :
    (execute_commands envABC 4 ["b", "c"]).dispatched = ["b", "c"] :=
  (C10_nonzero_exit_does_not_halt envABC 4 ["b", "c"]).2 (by decide)

end ScpClient
